import Mathlib

/-!
Verification of the duplicate-logging detection engine specified in spec.md.
The engine (`detect_duplicate_logging` of module
`src.agent.tools.tool_12_duplicate_logging_detector`) is not present in the
repository sources; only its test harness `test_duplicate_logging_quick.py`
is.  The definitions below are therefore modelled from the specification,
faithful to its words, and checked against the concrete inputs appearing in
the test harness.
-/

/-- A source location `(file_path, line_number, function)` as carried by a
Finding (spec section 3). -/
structure Location where
  file_path : String
  line_number : Nat
  function : String
deriving DecidableEq, Repr

/-- Modelled from the spec: the input record `LogStatement` of the missing
engine module (spec section 3): `message`, `file_path`, `line_number`,
`function`, optional `context` (surrounding-code snippet used for loop
detection) and optional `level` (defaulting to INFO when absent). -/
structure LogStatement where
  message : String
  file_path : String
  line_number : Nat
  function : String
  context : Option String := none
  level : Option String := none
deriving DecidableEq, Repr

instance : Inhabited LogStatement :=
  ⟨{ message := "", file_path := "", line_number := 0, function := "" }⟩

/-- Finding type: one of `exact | spam | noise | similar` (spec section 3). -/
inductive FType where
  | exact
  | spam
  | noise
  | similar
deriving DecidableEq, Repr

/-- Finding severity: one of `critical | high | medium | low` (spec section 3). -/
inductive Severity where
  | critical
  | high
  | medium
  | low
deriving DecidableEq, Repr

/-- Modelled from the spec: the output record `Finding` of the missing engine
(spec section 3). -/
structure Finding where
  type : FType
  severity : Severity
  occurrences : Nat
  locations : List Location
  message : String
  recommendation : String
deriving DecidableEq, Repr

/-- Modelled from the spec: the derived `Statistics` view (spec section 3). -/
structure Statistics where
  total_duplicates : Nat
  total_affected_locations : Nat
  by_type : List (FType × Nat)
  by_severity : List (Severity × Nat)
deriving DecidableEq, Repr

/-- Modelled from the spec: the top-level `Report` (spec section 3). -/
structure Report where
  success : Bool
  detection_mode : String
  duplicate_logs : List Finding
  statistics : Statistics
  message : String
deriving DecidableEq, Repr

/-- First-seen-order deduplication, parameterized by the elements already
seen: keeps the first occurrence of each element, dropping later repeats. -/
def dedupFirstAux {α : Type} [DecidableEq α] (seen : List α) : List α → List α
  | [] => []
  | x :: xs => if x ∈ seen then dedupFirstAux seen xs else x :: dedupFirstAux (x :: seen) xs

/-- First-seen-order deduplication: keeps the first occurrence of each
element, dropping later repeats. -/
def dedupFirst {α : Type} [DecidableEq α] (l : List α) : List α :=
  dedupFirstAux [] l

/-- The position of the first occurrence of an element in a list (the list
length if absent); measures first-seen order. -/
def firstIdx {α : Type} [DecidableEq α] (a : α) : List α → Nat
  | [] => 0
  | x :: xs => if x = a then 0 else firstIdx a xs + 1

/-- Drops a brace-delimited interpolation placeholder span; the flag records
whether we are currently inside a `{...}` span. -/
def stripBracesAux : Bool → List Char → List Char
  | _, [] => []
  | false, '{' :: cs => stripBracesAux true cs
  | false, c :: cs => c :: stripBracesAux false cs
  | true, '}' :: cs => stripBracesAux false cs
  | true, _ :: cs => stripBracesAux true cs

/-- Drops percent-format specifiers such as `%s` or `%d`. -/
def stripPercentAux : List Char → List Char
  | [] => []
  | '%' :: c :: cs => if c.isAlpha then stripPercentAux cs else '%' :: stripPercentAux (c :: cs)
  | c :: cs => c :: stripPercentAux cs

/-- Splits a character list into whitespace-separated words; `cur` is the
current word accumulated in reverse. -/
def wordsAux : List Char → List Char → List (List Char)
  | cur, [] => if cur = [] then [] else [cur.reverse]
  | cur, c :: cs =>
    if c = ' ' ∨ c = '\t' ∨ c = '\n' then
      if cur = [] then wordsAux [] cs else cur.reverse :: wordsAux [] cs
    else wordsAux (c :: cur) cs

/-- Joins words with single spaces. -/
def joinWords : List (List Char) → List Char
  | [] => []
  | [w] => w
  | w :: ws => w ++ ' ' :: joinWords ws

/-- Modelled from the spec: the Normalizer `canonicalize` of the missing
engine (spec section 4.1): strips bracketed placeholders, percent-format
specifiers and numeric literals, case-folds, and trims/collapses whitespace.
Total and pure. -/
def canonicalize (m : String) : String :=
  String.mk (joinWords (wordsAux []
    (((stripPercentAux (stripBracesAux false (m.data.map Char.toLower)))).filter
      (fun c => !c.isDigit))))

/-- The effective level of a statement: absent levels default to INFO
(spec sections 3 and 7). -/
def levelOf (s : LogStatement) : String := s.level.getD "INFO"

/-- The effective context of a statement: absent contexts default to the
empty snippet (spec sections 3 and 7). -/
def contextOf (s : LogStatement) : String := s.context.getD ""

/-- Fills in the defaults for the optional fields of a statement (spec
section 7: malformed statements with missing optional fields are tolerated
via defaulting). -/
def normalizeStmt (s : LogStatement) : LogStatement :=
  { s with level := some (levelOf s), context := some (contextOf s) }

/-- The defaulting pass applied to the whole input list. -/
def prep (stmts : List LogStatement) : List LogStatement :=
  stmts.map normalizeStmt

/-- The canonical grouping key of a statement. -/
def canonKey (s : LogStatement) : String := canonicalize s.message

/-- Strips the repository path from a file path for display (spec section 6:
`repository_path` is used only to normalize `file_path` values for display). -/
def displayPath (repo fp : String) : String :=
  if repo ≠ "" ∧ (repo ++ "/").isPrefixOf fp then fp.drop (repo.length + 1) else fp

/-- The display location of a statement. -/
def mkLocation (repo : String) (s : LogStatement) : Location :=
  { file_path := displayPath repo s.file_path
    line_number := s.line_number
    function := s.function }

/-- The distinct canonical keys occurring in the input, in first-seen order. -/
def exactKeys (stmts : List LogStatement) : List String :=
  dedupFirst (stmts.map canonKey)

/-- The statements sharing the canonical key `k` (the group for `k`). -/
def groupOf (stmts : List LogStatement) (k : String) : List LogStatement :=
  stmts.filter (fun s => decide (canonKey s = k))

/-- The distinct `(file_path, line_number)` pairs of a statement list. -/
def locPairs (l : List LogStatement) : List (String × Nat) :=
  dedupFirst (l.map (fun s => (s.file_path, s.line_number)))

/-- Modelled from the spec: the exact-duplicate qualification test of the
missing engine (spec section 4.2): a group qualifies iff it spans at least 2
distinct `(file_path, line_number)` pairs. -/
def qualifiesExact (stmts : List LogStatement) (k : String) : Bool :=
  decide (2 ≤ (locPairs (groupOf stmts k)).length)

/-- The canonical keys whose groups qualify as exact findings. -/
def exactQualKeys (stmts : List LogStatement) : List String :=
  (exactKeys stmts).filter (qualifiesExact stmts)

/-- Severity-relevant high levels for exact duplicates (spec section 4.2). -/
def highLevels : List String := ["WARNING", "ERROR", "CRITICAL"]

/-- Recommendation text for exact duplicates (spec section 4.2). -/
def exactRecommendation : String :=
  "Consolidate into a shared logging helper or raise the call up the stack to a single emission point."

/-- Modelled from the spec: the exact finding built for a qualifying group
(spec section 4.2): occurrences is the number of statements in the group;
severity is high if any statement is WARNING/ERROR/CRITICAL or the group
spans at least 3 distinct files, else medium. -/
def mkExactFinding (repo : String) (stmts : List LogStatement) (k : String) : Finding :=
  let g := groupOf stmts k
  { type := FType.exact
    severity :=
      if g.any (fun s => decide (levelOf s ∈ highLevels)) ||
         decide (3 ≤ (dedupFirst (g.map (fun s => s.file_path))).length)
      then Severity.high else Severity.medium
    occurrences := g.length
    locations := dedupFirst (g.map (mkLocation repo))
    message := g.headI.message
    recommendation := exactRecommendation }

/-- The exact findings of the first pipeline stage, in first-seen key order. -/
def exactFindings (repo : String) (stmts : List LogStatement) : List Finding :=
  (exactQualKeys stmts).map (mkExactFinding repo stmts)

/-- Whether a statement is claimed by the exact stage: its canonical group
qualifies as an exact finding. -/
def exactClaimed (stmts : List LogStatement) (s : LogStatement) : Bool :=
  qualifiesExact stmts (canonKey s)

/-- The statements left unclaimed after the exact stage. -/
def remaining1 (stmts : List LogStatement) : List LogStatement :=
  stmts.filter (fun s => !exactClaimed stmts s)

/-- Checks whether `needle` occurs as a contiguous infix of `hay`. -/
def isInfixList (needle : List Char) : List Char → Bool
  | [] => needle.isEmpty
  | c :: cs => needle.isPrefixOf (c :: cs) || isInfixList needle cs

/-- Modelled from the spec: the loop-introducing constructs recognized by the
spam detector of the missing engine (spec section 4.3, glossary), detected as
substrings of the context snippet. -/
def loopKeywords : List String := ["for ", "while "]

/-- Whether a statement's context contains a loop-introducing construct. -/
def hasLoop (s : LogStatement) : Bool :=
  loopKeywords.any (fun k => isInfixList k.data (contextOf s).data)

/-- Recommendation text for spam (spec section 4.3). -/
def spamRecommendation : String :=
  "Replace with pre/post-loop summary logging (counts, elapsed time) or down-level to a high-volume-safe level with sampling."

/-- Modelled from the spec: the spam finding for a single statement inside a
loop (spec section 4.3): a single statement qualifies, severity is always
high. -/
def mkSpamFinding (repo : String) (s : LogStatement) : Finding :=
  { type := FType.spam
    severity := Severity.high
    occurrences := 1
    locations := [mkLocation repo s]
    message := s.message
    recommendation := spamRecommendation }

/-- The statements claimed by the spam stage. -/
def spamStmts (stmts : List LogStatement) : List LogStatement :=
  (remaining1 stmts).filter hasLoop

/-- The spam findings, in first-seen order. -/
def spamFindings (repo : String) (stmts : List LogStatement) : List Finding :=
  (spamStmts stmts).map (mkSpamFinding repo)

/-- The statements left unclaimed after the spam stage. -/
def remaining2 (stmts : List LogStatement) : List LogStatement :=
  (remaining1 stmts).filter (fun s => !hasLoop s)

/-- Modelled from the spec: the maintained set of low-information phrase
patterns of the noise classifier (spec section 4.4). -/
def noisePatterns : List String :=
  ["entering function", "debug checkpoint", "checkpoint", "here"]

/-- Trace/debug level tiers (spec section 4.4). -/
def debugLevels : List String := ["DEBUG", "TRACE"]

/-- Whether a message carries structured context (interpolation markers). -/
def hasPlaceholder (m : String) : Bool :=
  m.data.any (fun c => c = '{' || c = '%')

/-- Modelled from the spec: the noise test of the missing engine (spec
section 4.4): a statement is noise if its canonical message matches a
low-information pattern, or its level is a trace/debug tier and its message
carries no structured context. -/
def isNoise (s : LogStatement) : Bool :=
  decide (canonKey s ∈ noisePatterns) ||
    (decide (levelOf s ∈ debugLevels) && !hasPlaceholder s.message)

/-- Recommendation text for noise (spec section 4.4). -/
def noiseRecommendation : String :=
  "Remove or demote to a conditional trace path excluded from production builds."

/-- Modelled from the spec: the noise finding for a single low-information
statement (spec section 4.4): severity is always low. -/
def mkNoiseFinding (repo : String) (s : LogStatement) : Finding :=
  { type := FType.noise
    severity := Severity.low
    occurrences := 1
    locations := [mkLocation repo s]
    message := s.message
    recommendation := noiseRecommendation }

/-- The statements claimed by the noise stage. -/
def noiseStmts (stmts : List LogStatement) : List LogStatement :=
  (remaining2 stmts).filter isNoise

/-- The noise findings, in first-seen order. -/
def noiseFindings (repo : String) (stmts : List LogStatement) : List Finding :=
  (noiseStmts stmts).map (mkNoiseFinding repo)

/-- The statements left unclaimed after the noise stage; input of the
similarity grouper. -/
def remaining3 (stmts : List LogStatement) : List LogStatement :=
  (remaining2 stmts).filter (fun s => !isNoise s)

/-- The distinct tokens of a canonical message. -/
def tokens (k : String) : List String :=
  dedupFirst ((wordsAux [] k.data).map String.mk)

/-- Modelled from the spec: the similarity relation of the missing engine
(spec sections 4.5 and 9): token Jaccard similarity with a fixed threshold
chosen to satisfy the spec's examples — "authentication successful" and
"authentication completed successfully" share 1 of 4 distinct tokens, so the
threshold is 1/5: two canonical messages are related when their Jaccard
ratio exceeds 1/5, while fully disjoint token sets (ratio 0) never relate. -/
def simRel (a b : String) : Bool :=
  let ta := tokens a
  let tb := tokens b
  let inter := (ta.filter (fun w => decide (w ∈ tb))).length
  let union := ta.length + (tb.filter (fun w => decide (¬ w ∈ ta))).length
  decide (union < 5 * inter)

/-- Whether a statement is textually similar to some member of a cluster. -/
def relatedToCluster (x : LogStatement) (c : List LogStatement) : Bool :=
  c.any (fun y => simRel (canonKey x) (canonKey y))

/-- Inserts a statement into a running cluster partition, merging every
cluster it is related to (transitive closure over the threshold graph, spec
section 4.5).  This builds only the partition; the accumulation order of the
partition is immaterial, because `similarClusters` re-emits the components
in first-seen order of the input (spec section 4.8). -/
def addToClusters (cs : List (List LogStatement)) (x : LogStatement) :
    List (List LogStatement) :=
  let related := cs.filter (fun c => relatedToCluster x c)
  let unrelated := cs.filter (fun c => !relatedToCluster x c)
  if related.isEmpty then cs ++ [[x]]
  else unrelated ++ [related.foldr (· ++ ·) [] ++ [x]]

/-- The merged similarity partition (connected components over the threshold
graph) of the statements left for the similarity stage, in accumulation
order. -/
def baseClusters (stmts : List LogStatement) : List (List LogStatement) :=
  (remaining3 stmts).foldl addToClusters []

/-- The cluster of a partition containing a given statement (the empty
cluster if none does). -/
def clusterContaining (cs : List (List LogStatement)) (s : LogStatement) :
    List LogStatement :=
  (cs.filter (fun c => decide (s ∈ c))).headI

/-- The similarity clusters (connected components over the threshold graph)
of the statements left for the similarity stage, listed in first-seen order
of their earliest statement (spec section 4.8). -/
def similarClusters (stmts : List LogStatement) : List (List LogStatement) :=
  dedupFirst ((remaining3 stmts).map (clusterContaining (baseClusters stmts)))

/-- A cluster qualifies as a similar finding iff it contains statements from
at least 2 distinct locations (spec section 4.5). -/
def qualifiesSimilar (c : List LogStatement) : Bool :=
  decide (2 ≤ (locPairs c).length)

/-- Recommendation text for similar messages (spec section 4.5). -/
def similarRecommendation : String :=
  "Unify wording into one canonical message template."

/-- Modelled from the spec: the similar finding for a qualifying cluster
(spec section 4.5): severity is medium. -/
def mkSimilarFinding (repo : String) (c : List LogStatement) : Finding :=
  { type := FType.similar
    severity := Severity.medium
    occurrences := c.length
    locations := dedupFirst (c.map (mkLocation repo))
    message := c.headI.message
    recommendation := similarRecommendation }

/-- The similar findings, one per qualifying cluster. -/
def similarFindings (repo : String) (stmts : List LogStatement) : List Finding :=
  ((similarClusters stmts).filter qualifiesSimilar).map (mkSimilarFinding repo)

/-- All findings in stage order: exact, spam, noise, similar (spec section
4.8). -/
def allFindings (repo : String) (stmts : List LogStatement) : List Finding :=
  exactFindings repo stmts ++ spamFindings repo stmts ++
    noiseFindings repo stmts ++ similarFindings repo stmts

/-- The four finding types, in report order. -/
def allTypes : List FType := [FType.exact, FType.spam, FType.noise, FType.similar]

/-- The four severities, in report order. -/
def allSeverities : List Severity :=
  [Severity.critical, Severity.high, Severity.medium, Severity.low]

/-- Counts the findings of a given type. -/
def countType (fs : List Finding) (t : FType) : Nat :=
  fs.countP (fun f => decide (f.type = t))

/-- Counts the findings of a given severity. -/
def countSeverity (fs : List Finding) (v : Severity) : Nat :=
  fs.countP (fun f => decide (f.severity = v))

/-- Concatenates the location lists of all findings. -/
def allLocations (fs : List Finding) : List Location :=
  fs.foldr (fun f acc => f.locations ++ acc) []

/-- Modelled from the spec: the statistics aggregator of the missing engine
(spec sections 3 and 4.7): per-type and per-severity counts and the
union-of-locations count, never double-counting a shared location. -/
def mkStatistics (fs : List Finding) : Statistics :=
  { total_duplicates := fs.length
    total_affected_locations := (dedupFirst (allLocations fs)).length
    by_type := allTypes.map (fun t => (t, countType fs t))
    by_severity := allSeverities.map (fun v => (v, countSeverity fs v)) }

/-- Modelled from the spec: the single operation `detect_duplicate_logging`
of the missing engine module `tool_12_duplicate_logging_detector` (spec
section 6): classifies the input statements into exact/spam/noise/similar
findings, aggregates statistics, and assembles the Report. Pure, total and
deterministic. -/
def detect_duplicate_logging (logging_statements : List LogStatement)
    (entities : List String) (repository_path : String) : Report :=
  let fs := allFindings repository_path (prep logging_statements)
  { success := true
    detection_mode := if entities.isEmpty then "statements_only" else "full"
    duplicate_logs := fs
    statistics := mkStatistics fs
    message := "Found " ++ toString fs.length ++ " duplicate logging issue(s)" }

/-! ### Basic properties of first-seen deduplication -/

theorem mem_dedupFirstAux {α : Type} [DecidableEq α] (a : α) :
    ∀ (l seen : List α), a ∈ dedupFirstAux seen l ↔ a ∈ l ∧ a ∉ seen := by
  intro l
  induction l with
  | nil => intro seen; simp [dedupFirstAux]
  | cons x xs ih =>
    intro seen
    rw [dedupFirstAux]
    by_cases hx : x ∈ seen
    · rw [if_pos hx, ih]
      constructor
      · rintro ⟨h1, h2⟩
        exact ⟨List.mem_cons_of_mem _ h1, h2⟩
      · rintro ⟨h1, h2⟩
        rcases List.mem_cons.mp h1 with rfl | h1
        · exact absurd hx h2
        · exact ⟨h1, h2⟩
    · rw [if_neg hx]
      constructor
      · intro h
        rcases List.mem_cons.mp h with rfl | h
        · exact ⟨List.mem_cons_self _ _, hx⟩
        · obtain ⟨h1, h2⟩ := (ih (x :: seen)).mp h
          exact ⟨List.mem_cons_of_mem _ h1, fun hm => h2 (List.mem_cons_of_mem _ hm)⟩
      · rintro ⟨h1, h2⟩
        rcases List.mem_cons.mp h1 with rfl | h1
        · exact List.mem_cons_self _ _
        · by_cases hax : a = x
          · subst hax
            exact List.mem_cons_self _ _
          · refine List.mem_cons_of_mem _ ((ih (x :: seen)).mpr ⟨h1, fun hm => ?_⟩)
            rcases List.mem_cons.mp hm with h | h
            · exact hax h
            · exact h2 h

theorem mem_dedupFirst {α : Type} [DecidableEq α] (a : α) (l : List α) :
    a ∈ dedupFirst l ↔ a ∈ l := by
  rw [dedupFirst, mem_dedupFirstAux]
  simp

theorem nodup_dedupFirstAux {α : Type} [DecidableEq α] :
    ∀ (l seen : List α), (dedupFirstAux seen l).Nodup := by
  intro l
  induction l with
  | nil => intro seen; simp [dedupFirstAux]
  | cons x xs ih =>
    intro seen
    rw [dedupFirstAux]
    by_cases hx : x ∈ seen
    · simpa [if_pos hx] using ih seen
    · rw [if_neg hx]
      refine List.nodup_cons.mpr ⟨?_, ih (x :: seen)⟩
      intro hmem
      exact ((mem_dedupFirstAux x xs (x :: seen)).mp hmem).2 (List.mem_cons_self x seen)

theorem nodup_dedupFirst {α : Type} [DecidableEq α] (l : List α) :
    (dedupFirst l).Nodup :=
  nodup_dedupFirstAux l []

theorem toFinset_dedupFirst {α : Type} [DecidableEq α] (l : List α) :
    (dedupFirst l).toFinset = l.toFinset := by
  ext a
  simp [List.mem_toFinset, mem_dedupFirst]

theorem length_dedupFirst {α : Type} [DecidableEq α] (l : List α) :
    (dedupFirst l).length = l.toFinset.card := by
  rw [← toFinset_dedupFirst]
  exact (List.toFinset_card_of_nodup (nodup_dedupFirst l)).symm

theorem pairwise_firstIdx_dedupFirstAux {α : Type} [DecidableEq α] :
    ∀ (l seen : List α), (dedupFirstAux seen l).Pairwise
      (fun a b => firstIdx a l < firstIdx b l) := by
  intro l
  induction l with
  | nil => intro seen; simp [dedupFirstAux]
  | cons x xs ih =>
    intro seen
    rw [dedupFirstAux]
    by_cases hx : x ∈ seen
    · rw [if_pos hx]
      refine (ih seen).imp_of_mem ?_
      intro a b ha hb hab
      have ha' := (mem_dedupFirstAux a xs seen).mp ha
      have hb' := (mem_dedupFirstAux b xs seen).mp hb
      have hax : ¬ x = a := fun h => ha'.2 (h ▸ hx)
      have hbx : ¬ x = b := fun h => hb'.2 (h ▸ hx)
      simp only [firstIdx, if_neg hax, if_neg hbx]
      omega
    · rw [if_neg hx]
      refine List.pairwise_cons.mpr ⟨?_, ?_⟩
      · intro b hb
        have hb' := (mem_dedupFirstAux b xs (x :: seen)).mp hb
        have hbx : ¬ x = b := fun h => hb'.2 (h ▸ List.mem_cons_self _ _)
        have h0 : firstIdx x (x :: xs) = 0 := by simp [firstIdx]
        have hb1 : firstIdx b (x :: xs) = firstIdx b xs + 1 := by simp [firstIdx, hbx]
        omega
      · refine (ih (x :: seen)).imp_of_mem ?_
        intro a b ha hb hab
        have ha' := (mem_dedupFirstAux a xs (x :: seen)).mp ha
        have hb' := (mem_dedupFirstAux b xs (x :: seen)).mp hb
        have hax : ¬ x = a := fun h => ha'.2 (h ▸ List.mem_cons_self _ _)
        have hbx : ¬ x = b := fun h => hb'.2 (h ▸ List.mem_cons_self _ _)
        simp only [firstIdx, if_neg hax, if_neg hbx]
        omega

theorem pairwise_firstIdx_dedupFirst {α : Type} [DecidableEq α] (l : List α) :
    (dedupFirst l).Pairwise (fun a b => firstIdx a l < firstIdx b l) :=
  pairwise_firstIdx_dedupFirstAux l []

theorem two_le_length_of_mem_ne {α : Type} [DecidableEq α] {a b : α} {l : List α}
    (ha : a ∈ l) (hb : b ∈ l) (hab : a ≠ b) : 2 ≤ l.length := by
  have hsub : ({a, b} : Finset α) ⊆ l.toFinset := by
    intro x hx
    rcases Finset.mem_insert.mp hx with rfl | hx
    · exact List.mem_toFinset.mpr ha
    · rw [Finset.mem_singleton] at hx
      subst hx
      exact List.mem_toFinset.mpr hb
  calc 2 = ({a, b} : Finset α).card := (Finset.card_pair hab).symm
    _ ≤ l.toFinset.card := Finset.card_le_card hsub
    _ ≤ l.length := List.toFinset_card_le l

/-! ### Statistics lemmas -/

/-- Sum of the count values of a per-key count table. -/
def sumSnd {α : Type} (l : List (α × Nat)) : Nat :=
  (l.map Prod.snd).sum

/-- The union of the location sets of a finding list, as a finite set. -/
def locUnion (fs : List Finding) : Finset Location :=
  fs.foldr (fun f acc => f.locations.toFinset ∪ acc) ∅

theorem countType_total (fs : List Finding) :
    countType fs FType.exact + countType fs FType.spam +
      countType fs FType.noise + countType fs FType.similar = fs.length := by
  induction fs with
  | nil => rfl
  | cons f t ih =>
    simp only [countType, List.countP_cons] at ih ⊢
    cases h : f.type <;> simp [h] <;> omega

theorem countSeverity_total (fs : List Finding) :
    countSeverity fs Severity.critical + countSeverity fs Severity.high +
      countSeverity fs Severity.medium + countSeverity fs Severity.low = fs.length := by
  induction fs with
  | nil => rfl
  | cons f t ih =>
    simp only [countSeverity, List.countP_cons] at ih ⊢
    cases h : f.severity <;> simp [h] <;> omega

theorem allLocations_toFinset (fs : List Finding) :
    (allLocations fs).toFinset = locUnion fs := by
  induction fs with
  | nil => rfl
  | cons f t ih =>
    show (f.locations ++ allLocations t).toFinset = f.locations.toFinset ∪ locUnion t
    rw [List.toFinset_append, ih]

theorem normalizeStmt_idem (s : LogStatement) :
    normalizeStmt (normalizeStmt s) = normalizeStmt s := by
  simp [normalizeStmt, levelOf, contextOf]

theorem prep_map_normalize (stmts : List LogStatement) :
    prep (stmts.map normalizeStmt) = prep stmts := by
  simp only [prep, List.map_map]
  exact List.map_congr_left fun s _ => normalizeStmt_idem s

/-- C2: for every input, the sum of the values of `statistics.by_type` equals
`statistics.total_duplicates`, which equals the sum of the values of
`statistics.by_severity`; and `statistics.total_affected_locations` equals
the cardinality of the union of the location sets of all findings, counting
a location shared by two findings once. -/
theorem statistics_consistency (stmts : List LogStatement) (e : List String) (p : String) :
    sumSnd (detect_duplicate_logging stmts e p).statistics.by_type
        = (detect_duplicate_logging stmts e p).statistics.total_duplicates
    ∧ sumSnd (detect_duplicate_logging stmts e p).statistics.by_severity
        = (detect_duplicate_logging stmts e p).statistics.total_duplicates
    ∧ (detect_duplicate_logging stmts e p).statistics.total_affected_locations
        = (locUnion (detect_duplicate_logging stmts e p).duplicate_logs).card := by
  refine ⟨?_, ?_, ?_⟩
  · show sumSnd (mkStatistics (allFindings p (prep stmts))).by_type
        = (mkStatistics (allFindings p (prep stmts))).total_duplicates
    have h := countType_total (allFindings p (prep stmts))
    simp only [mkStatistics, sumSnd, allTypes, List.map_cons, List.map_nil,
      List.sum_cons, List.sum_nil]
    omega
  · show sumSnd (mkStatistics (allFindings p (prep stmts))).by_severity
        = (mkStatistics (allFindings p (prep stmts))).total_duplicates
    have h := countSeverity_total (allFindings p (prep stmts))
    simp only [mkStatistics, sumSnd, allSeverities, List.map_cons, List.map_nil,
      List.sum_cons, List.sum_nil]
    omega
  · show (dedupFirst (allLocations (allFindings p (prep stmts)))).length
        = (locUnion (detect_duplicate_logging stmts e p).duplicate_logs).card
    rw [length_dedupFirst, allLocations_toFinset]
    rfl

/-- C6: the engine is deterministic and stateless across invocations — two
calls with identical statements, entities and repository path return
identical Reports — and the ordering of `duplicate_logs` is the stage order
exact, spam, noise, similar with each stage in first-seen order of the input
list: exact findings are built over keys strictly ordered by the first
position of their canonical message, spam and noise findings over
order-preserving selections (sublists) of the input, and similar findings
over clusters strictly ordered by the first position of a statement assigned
to them. -/
theorem engine_deterministic_stage_order :
    (∀ (s1 s2 : List LogStatement) (e1 e2 : List String) (p1 p2 : String),
      s1 = s2 → e1 = e2 → p1 = p2 →
        detect_duplicate_logging s1 e1 p1 = detect_duplicate_logging s2 e2 p2)
    ∧ (∀ (stmts : List LogStatement) (e : List String) (p : String),
        (detect_duplicate_logging stmts e p).duplicate_logs =
          exactFindings p (prep stmts) ++ spamFindings p (prep stmts) ++
            noiseFindings p (prep stmts) ++ similarFindings p (prep stmts))
    ∧ (∀ ns : List LogStatement, (exactQualKeys ns).Pairwise
        (fun k1 k2 => firstIdx k1 (ns.map canonKey) < firstIdx k2 (ns.map canonKey)))
    ∧ (∀ ns : List LogStatement, (spamStmts ns).Sublist ns)
    ∧ (∀ ns : List LogStatement, (noiseStmts ns).Sublist ns)
    ∧ (∀ ns : List LogStatement, (similarClusters ns).Pairwise
        (fun c1 c2 =>
          firstIdx c1 ((remaining3 ns).map (clusterContaining (baseClusters ns)))
            < firstIdx c2 ((remaining3 ns).map (clusterContaining (baseClusters ns))))) := by
  refine ⟨?_, ?_, ?_, ?_, ?_, ?_⟩
  · intro s1 s2 e1 e2 p1 p2 h1 h2 h3
    subst h1
    subst h2
    subst h3
    rfl
  · intro stmts e p
    rfl
  · intro ns
    exact List.Pairwise.sublist (List.filter_sublist _) (pairwise_firstIdx_dedupFirst _)
  · intro ns
    exact (List.filter_sublist _).trans (List.filter_sublist _)
  · intro ns
    exact (List.filter_sublist _).trans
      ((List.filter_sublist _).trans (List.filter_sublist _))
  · intro ns
    exact pairwise_firstIdx_dedupFirst _

/-- Witness for C6 at a concrete input. -/
theorem engine_deterministic_stage_order_witness :
    detect_duplicate_logging [] [] "/tmp/test" = detect_duplicate_logging [] [] "/tmp/test" :=
  engine_deterministic_stage_order.1 [] [] [] [] "/tmp/test" "/tmp/test" rfl rfl rfl

/-- C7: the engine is total — it returns a Report for every input, with
`success = true` for every well-formed statement list (the structural
contract is enforced by the input type), and statements with missing
optional fields are defaulted, never aborting the run: pre-defaulting the
input does not change the Report. -/
theorem engine_never_fails (stmts : List LogStatement) (e : List String) (p : String) :
    (detect_duplicate_logging stmts e p).success = true
    ∧ detect_duplicate_logging (stmts.map normalizeStmt) e p
        = detect_duplicate_logging stmts e p := by
  refine ⟨rfl, ?_⟩
  unfold detect_duplicate_logging
  rw [prep_map_normalize]

/-- C8: the `entities` argument changes neither the findings nor the
statistics; it only selects the `detection_mode` label, which is `"full"`
for a non-empty entity list and `"statements_only"` otherwise. -/
theorem entities_advisory_only (stmts : List LogStatement) (e1 e2 : List String) (p : String) :
    (detect_duplicate_logging stmts e1 p).duplicate_logs
        = (detect_duplicate_logging stmts e2 p).duplicate_logs
    ∧ (detect_duplicate_logging stmts e1 p).statistics
        = (detect_duplicate_logging stmts e2 p).statistics
    ∧ ∀ e : List String, (detect_duplicate_logging stmts e p).detection_mode
        = if e.isEmpty then "statements_only" else "full" :=
  ⟨rfl, rfl, fun _ => rfl⟩

/-- The spam statement of the mixed-scenario test, whose context is only the
loop fragment `"for item"` (test_duplicate_logging_quick.py line 124). -/
def fragmentStmt : LogStatement :=
  { message := "Processing item", file_path := "c.py", line_number := 3,
    function := "process_batch", context := some "for item", level := some "INFO" }

/-- The same statement with a syntactically complete loop header as context
(as in test_duplicate_logging_quick.py line 68). -/
def fullLoopStmt : LogStatement :=
  { fragmentStmt with context := some "for item in items:" }

set_option maxHeartbeats 4000000 in
/-- C10: loop detection is keyword/substring-based on the context text, not
syntactic: a statement whose context is only the fragment `"for item"` is
classified as spam, and yields the very same Report as one whose context is
the complete loop header `"for item in items:"`. -/
theorem loop_detection_substring_based :
    ((detect_duplicate_logging [fragmentStmt] [] "/tmp/test").duplicate_logs.map
        (fun f => f.type)) = [FType.spam]
    ∧ detect_duplicate_logging [fragmentStmt] [] "/tmp/test"
        = detect_duplicate_logging [fullLoopStmt] [] "/tmp/test" := by
  constructor
  · decide
  · decide

/-! ### Cluster membership and stage precedence -/

theorem mem_foldr_append {α : Type} {y : α} (ls : List (List α)) :
    y ∈ ls.foldr (fun a b => a ++ b) [] ↔ ∃ c ∈ ls, y ∈ c := by
  induction ls with
  | nil => simp
  | cons c t ih => simp [List.mem_append, ih]

theorem mem_of_mem_addToClusters {cs : List (List LogStatement)} {x y : LogStatement}
    {c : List LogStatement}
    (hc : c ∈ addToClusters cs x) (hy : y ∈ c) : y = x ∨ ∃ c0 ∈ cs, y ∈ c0 := by
  simp only [addToClusters] at hc
  split at hc
  · rcases List.mem_append.mp hc with hc | hc
    · exact Or.inr ⟨c, hc, hy⟩
    · rw [List.mem_singleton] at hc
      subst hc
      rw [List.mem_singleton] at hy
      exact Or.inl hy
  · rcases List.mem_append.mp hc with hc | hc
    · exact Or.inr ⟨c, (List.mem_filter.mp hc).1, hy⟩
    · rw [List.mem_singleton] at hc
      subst hc
      rcases List.mem_append.mp hy with hy | hy
      · rcases (mem_foldr_append _).mp hy with ⟨c0, hc0, hy0⟩
        exact Or.inr ⟨c0, (List.mem_filter.mp hc0).1, hy0⟩
      · rw [List.mem_singleton] at hy
        exact Or.inl hy

theorem mem_clusters_foldl :
    ∀ (l : List LogStatement) (acc : List (List LogStatement))
      (c : List LogStatement) (y : LogStatement),
      c ∈ l.foldl addToClusters acc → y ∈ c → (∃ c0 ∈ acc, y ∈ c0) ∨ y ∈ l := by
  intro l
  induction l with
  | nil =>
    intro acc c y hc hy
    exact Or.inl ⟨c, hc, hy⟩
  | cons x t ih =>
    intro acc c y hc hy
    rw [List.foldl_cons] at hc
    rcases ih (addToClusters acc x) c y hc hy with h | h
    · rcases h with ⟨c0, hc0, hy0⟩
      rcases mem_of_mem_addToClusters hc0 hy0 with rfl | ⟨c1, hc1, hy1⟩
      · exact Or.inr (List.mem_cons_self _ _)
      · exact Or.inl ⟨c1, hc1, hy1⟩
    · exact Or.inr (List.mem_cons_of_mem _ h)

theorem mem_clusterContaining {cs : List (List LogStatement)} {s y : LogStatement}
    (hy : y ∈ clusterContaining cs s) : ∃ c0 ∈ cs, y ∈ c0 := by
  unfold clusterContaining at hy
  cases hf : cs.filter (fun c => decide (s ∈ c)) with
  | nil =>
    rw [hf] at hy
    simp only [List.headI] at hy
    exact absurd hy (List.not_mem_nil y)
  | cons c t =>
    rw [hf] at hy
    simp only [List.headI] at hy
    have hc : c ∈ cs.filter (fun c => decide (s ∈ c)) := by
      rw [hf]
      exact List.mem_cons_self _ _
    exact ⟨c, (List.mem_filter.mp hc).1, hy⟩

theorem mem_similarClusters {stmts : List LogStatement} {c : List LogStatement}
    {y : LogStatement} (hc : c ∈ similarClusters stmts) (hy : y ∈ c) :
    y ∈ remaining3 stmts := by
  rw [similarClusters, mem_dedupFirst] at hc
  rcases List.mem_map.mp hc with ⟨s, _, rfl⟩
  rcases mem_clusterContaining hy with ⟨c0, hc0, hy0⟩
  rcases mem_clusters_foldl (remaining3 stmts) [] c0 y hc0 hy0 with h | h
  · rcases h with ⟨c1, hc1, _⟩
    simp at hc1
  · exact h

theorem mem_remaining1 {stmts : List LogStatement} {s : LogStatement} :
    s ∈ remaining1 stmts ↔ s ∈ stmts ∧ exactClaimed stmts s = false := by
  simp [remaining1, List.mem_filter]

/-- C4: a statement whose context contains a loop construct and that is not
claimed as an exact duplicate always yields a spam finding — a single
statement qualifies, with no minimum occurrence count — of severity high,
and is never classified as noise or folded into a similar cluster, even if
its message also matches a noise pattern. -/
theorem spam_precedence (stmts : List LogStatement) (e : List String) (p : String)
    (s : LogStatement) (hs : s ∈ prep stmts) (hloop : hasLoop s = true)
    (hnx : exactClaimed (prep stmts) s = false) :
    mkSpamFinding p s ∈ (detect_duplicate_logging stmts e p).duplicate_logs
    ∧ (mkSpamFinding p s).severity = Severity.high
    ∧ s ∉ noiseStmts (prep stmts)
    ∧ ∀ c ∈ similarClusters (prep stmts), s ∉ c := by
  have hr1 : s ∈ remaining1 (prep stmts) := mem_remaining1.mpr ⟨hs, hnx⟩
  have hsp : s ∈ spamStmts (prep stmts) := by
    rw [spamStmts, List.mem_filter]
    exact ⟨hr1, hloop⟩
  refine ⟨?_, rfl, ?_, ?_⟩
  · show mkSpamFinding p s ∈ allFindings p (prep stmts)
    simp only [allFindings, List.mem_append]
    exact Or.inl (Or.inl (Or.inr (List.mem_map_of_mem _ hsp)))
  · intro hn
    have h2 : s ∈ remaining2 (prep stmts) := (List.mem_filter.mp hn).1
    have hcontra := (List.mem_filter.mp h2).2
    rw [hloop] at hcontra
    simp at hcontra
  · intro c hc hyc
    have h3 := mem_similarClusters hc hyc
    have h2 : s ∈ remaining2 (prep stmts) := (List.mem_filter.mp h3).1
    have hcontra := (List.mem_filter.mp h2).2
    rw [hloop] at hcontra
    simp at hcontra

/-- A single loop-context statement whose message also matches a noise
pattern, used to witness spam precedence. -/
def spamExampleStmt : LogStatement :=
  { message := "Entering function", file_path := "batch/processor.py", line_number := 55,
    function := "process_batch", context := some "for item in items:", level := some "DEBUG" }

/-- Witness for C4 at a concrete single-statement input whose message also
matches a noise pattern. -/
theorem spam_precedence_witness :
    mkSpamFinding "/tmp/test" spamExampleStmt
        ∈ (detect_duplicate_logging [spamExampleStmt] [] "/tmp/test").duplicate_logs
    ∧ (mkSpamFinding "/tmp/test" spamExampleStmt).severity = Severity.high
    ∧ spamExampleStmt ∉ noiseStmts (prep [spamExampleStmt])
    ∧ ∀ c ∈ similarClusters (prep [spamExampleStmt]), spamExampleStmt ∉ c :=
  spam_precedence [spamExampleStmt] [] "/tmp/test" spamExampleStmt (by decide)
    (by decide) (by decide)

/-- C5: an unclaimed statement whose canonical message is "entering function"
or "debug checkpoint" at DEBUG/TRACE level yields a noise finding, and every
noise finding has severity low. -/
theorem noise_classification (stmts : List LogStatement) (e : List String) (p : String)
    (s : LogStatement) (hs : s ∈ prep stmts)
    (hpat : canonKey s = "entering function" ∨ canonKey s = "debug checkpoint")
    (hlvl : levelOf s = "DEBUG" ∨ levelOf s = "TRACE")
    (hnx : exactClaimed (prep stmts) s = false)
    (hnl : hasLoop s = false) :
    mkNoiseFinding p s ∈ (detect_duplicate_logging stmts e p).duplicate_logs
    ∧ (mkNoiseFinding p s).severity = Severity.low
    ∧ ∀ (repo : String) (l : List LogStatement) (f : Finding),
        f ∈ noiseFindings repo l → f.severity = Severity.low := by
  have hr1 : s ∈ remaining1 (prep stmts) := mem_remaining1.mpr ⟨hs, hnx⟩
  have hr2 : s ∈ remaining2 (prep stmts) := by
    rw [remaining2, List.mem_filter]
    refine ⟨hr1, ?_⟩
    rw [hnl]
    rfl
  have hnoise : isNoise s = true := by
    rcases hpat with h | h <;> simp [isNoise, h, noisePatterns]
  have hnm : s ∈ noiseStmts (prep stmts) := by
    rw [noiseStmts, List.mem_filter]
    exact ⟨hr2, hnoise⟩
  refine ⟨?_, rfl, ?_⟩
  · show mkNoiseFinding p s ∈ allFindings p (prep stmts)
    simp only [allFindings, List.mem_append]
    exact Or.inl (Or.inr (List.mem_map_of_mem _ hnm))
  · intro repo l f hf
    rcases List.mem_map.mp hf with ⟨t, _, rfl⟩
    rfl

/-- A low-information DEBUG statement used to witness noise classification. -/
def noiseExampleStmt : LogStatement :=
  { message := "Entering function", file_path := "service.py", line_number := 10,
    function := "some_function", context := some "", level := some "DEBUG" }

/-- Witness for C5 at a concrete input. -/
theorem noise_classification_witness :
    mkNoiseFinding "/tmp/test" noiseExampleStmt
        ∈ (detect_duplicate_logging [noiseExampleStmt] [] "/tmp/test").duplicate_logs
    ∧ (mkNoiseFinding "/tmp/test" noiseExampleStmt).severity = Severity.low
    ∧ ∀ (repo : String) (l : List LogStatement) (f : Finding),
        f ∈ noiseFindings repo l → f.severity = Severity.low :=
  noise_classification [noiseExampleStmt] [] "/tmp/test" noiseExampleStmt (by decide)
    (Or.inl (by decide)) (Or.inl rfl) (by decide) (by decide)

/-! ### Uniqueness of exact findings per canonical key -/

theorem canonKey_headI_groupOf {stmts : List LogStatement} {k : String}
    (hk : k ∈ exactKeys stmts) : canonKey (groupOf stmts k).headI = k := by
  rw [exactKeys, mem_dedupFirst] at hk
  rcases List.mem_map.mp hk with ⟨s, hs, rfl⟩
  have hmem : s ∈ groupOf stmts (canonKey s) :=
    List.mem_filter.mpr ⟨hs, by simp⟩
  have hne : groupOf stmts (canonKey s) ≠ [] := List.ne_nil_of_mem hmem
  cases hG : groupOf stmts (canonKey s) with
  | nil => exact absurd hG hne
  | cons a t =>
    have ha : a ∈ groupOf stmts (canonKey s) := by
      rw [hG]
      exact List.mem_cons_self _ _
    have hpred := (List.mem_filter.mp ha).2
    simp only [List.headI]
    exact of_decide_eq_true hpred

theorem filter_map_eq_singleton {κ β : Type} [DecidableEq κ]
    (F : κ → β) (keyOf : β → κ) :
    ∀ (keys : List κ), keys.Nodup → (∀ k' ∈ keys, keyOf (F k') = k') →
      ∀ k ∈ keys, (keys.map F).filter (fun b => decide (keyOf b = k)) = [F k] := by
  intro keys
  induction keys with
  | nil =>
    intro _ _ k hk
    exact absurd hk (List.not_mem_nil k)
  | cons a t ih =>
    intro hnd hF k hk
    obtain ⟨hat, hndt⟩ := List.nodup_cons.mp hnd
    have h1 : keyOf (F a) = a := hF a (List.mem_cons_self _ _)
    rw [List.map_cons, List.filter_cons]
    rcases List.mem_cons.mp hk with rfl | hk'
    · rw [if_pos (decide_eq_true h1)]
      have hnil : (t.map F).filter (fun b => decide (keyOf b = k)) = [] := by
        rw [List.filter_eq_nil_iff]
        intro b hb
        rcases List.mem_map.mp hb with ⟨k', hk', rfl⟩
        have hkey : keyOf (F k') = k' := hF k' (List.mem_cons_of_mem _ hk')
        have hne : k' ≠ k := fun h => hat (h ▸ hk')
        simp [hkey, hne]
      rw [hnil]
    · have hne : a ≠ k := fun h => hat (h ▸ hk')
      rw [if_neg (by simp [h1, hne])]
      exact ih hndt (fun k' hk'' => hF k' (List.mem_cons_of_mem _ hk'')) k hk'

theorem nodup_exactQualKeys (stmts : List LogStatement) :
    (exactQualKeys stmts).Nodup :=
  (nodup_dedupFirst (stmts.map canonKey)).filter _

theorem canonKey_mkExactFinding {repo : String} {stmts : List LogStatement} {k : String}
    (hk : k ∈ exactQualKeys stmts) :
    canonicalize (mkExactFinding repo stmts k).message = k :=
  canonKey_headI_groupOf ((List.mem_filter.mp hk).1)

theorem type_of_mem_spamFindings {repo : String} {l : List LogStatement} {f : Finding}
    (hf : f ∈ spamFindings repo l) : f.type = FType.spam := by
  rcases List.mem_map.mp hf with ⟨s, _, rfl⟩
  rfl

theorem type_of_mem_noiseFindings {repo : String} {l : List LogStatement} {f : Finding}
    (hf : f ∈ noiseFindings repo l) : f.type = FType.noise := by
  rcases List.mem_map.mp hf with ⟨s, _, rfl⟩
  rfl

theorem type_of_mem_similarFindings {repo : String} {l : List LogStatement} {f : Finding}
    (hf : f ∈ similarFindings repo l) : f.type = FType.similar := by
  rcases List.mem_map.mp hf with ⟨c, _, rfl⟩
  rfl

theorem exactClaimed_of_not_mem_remaining3 {stmts : List LogStatement} {s : LogStatement}
    (h : s ∈ remaining3 stmts) : exactClaimed stmts s = false := by
  have h2 : s ∈ remaining2 stmts := (List.mem_filter.mp h).1
  have h1 : s ∈ remaining1 stmts := (List.mem_filter.mp h2).1
  exact (mem_remaining1.mp h1).2

/-- C1: for a canonical message shared by at least two input statements at
distinct `(file_path, line_number)` pairs, filtering `duplicate_logs` on
exact findings carrying that canonical message yields exactly one finding,
its `occurrences` is the number of statements in the group, and no statement
of that group ever reaches a similar cluster. -/
theorem exact_duplicate_correctness (stmts : List LogStatement) (e : List String)
    (p k : String) (s1 s2 : LogStatement)
    (h1 : s1 ∈ stmts) (h2 : s2 ∈ stmts)
    (hc1 : canonicalize s1.message = k) (hc2 : canonicalize s2.message = k)
    (hne : (s1.file_path, s1.line_number) ≠ (s2.file_path, s2.line_number)) :
    ((detect_duplicate_logging stmts e p).duplicate_logs.filter
        (fun f => decide (f.type = FType.exact) && decide (canonicalize f.message = k)))
      = [mkExactFinding p (prep stmts) k]
    ∧ (mkExactFinding p (prep stmts) k).occurrences = (groupOf (prep stmts) k).length
    ∧ ∀ s ∈ prep stmts, canonKey s = k → ∀ c ∈ similarClusters (prep stmts), s ∉ c := by
  have hm1 : normalizeStmt s1 ∈ prep stmts := List.mem_map_of_mem _ h1
  have hm2 : normalizeStmt s2 ∈ prep stmts := List.mem_map_of_mem _ h2
  have hk1 : canonKey (normalizeStmt s1) = k := hc1
  have hk2 : canonKey (normalizeStmt s2) = k := hc2
  have hg1 : normalizeStmt s1 ∈ groupOf (prep stmts) k :=
    List.mem_filter.mpr ⟨hm1, decide_eq_true hk1⟩
  have hg2 : normalizeStmt s2 ∈ groupOf (prep stmts) k :=
    List.mem_filter.mpr ⟨hm2, decide_eq_true hk2⟩
  have hp1 : (s1.file_path, s1.line_number) ∈ locPairs (groupOf (prep stmts) k) := by
    rw [locPairs, mem_dedupFirst]
    exact List.mem_map.mpr ⟨normalizeStmt s1, hg1, rfl⟩
  have hp2 : (s2.file_path, s2.line_number) ∈ locPairs (groupOf (prep stmts) k) := by
    rw [locPairs, mem_dedupFirst]
    exact List.mem_map.mpr ⟨normalizeStmt s2, hg2, rfl⟩
  have hqualP : 2 ≤ (locPairs (groupOf (prep stmts) k)).length :=
    two_le_length_of_mem_ne hp1 hp2 hne
  have hqual : qualifiesExact (prep stmts) k = true := decide_eq_true hqualP
  have hkeys : k ∈ exactKeys (prep stmts) := by
    rw [exactKeys, mem_dedupFirst]
    exact List.mem_map.mpr ⟨normalizeStmt s1, hm1, hk1⟩
  have hqk : k ∈ exactQualKeys (prep stmts) :=
    List.mem_filter.mpr ⟨hkeys, hqual⟩
  refine ⟨?_, rfl, ?_⟩
  · show ((allFindings p (prep stmts)).filter
        (fun f => decide (f.type = FType.exact) && decide (canonicalize f.message = k)))
      = [mkExactFinding p (prep stmts) k]
    rw [allFindings, List.filter_append, List.filter_append, List.filter_append]
    have hspam : (spamFindings p (prep stmts)).filter
        (fun f => decide (f.type = FType.exact) && decide (canonicalize f.message = k)) = [] := by
      rw [List.filter_eq_nil_iff]
      intro f hf
      simp [type_of_mem_spamFindings hf]
    have hnoise : (noiseFindings p (prep stmts)).filter
        (fun f => decide (f.type = FType.exact) && decide (canonicalize f.message = k)) = [] := by
      rw [List.filter_eq_nil_iff]
      intro f hf
      simp [type_of_mem_noiseFindings hf]
    have hsim : (similarFindings p (prep stmts)).filter
        (fun f => decide (f.type = FType.exact) && decide (canonicalize f.message = k)) = [] := by
      rw [List.filter_eq_nil_iff]
      intro f hf
      simp [type_of_mem_similarFindings hf]
    have hexact : (exactFindings p (prep stmts)).filter
        (fun f => decide (f.type = FType.exact) && decide (canonicalize f.message = k))
        = [mkExactFinding p (prep stmts) k] := by
      rw [exactFindings]
      have hcongr : ((exactQualKeys (prep stmts)).map (mkExactFinding p (prep stmts))).filter
          (fun f => decide (f.type = FType.exact) && decide (canonicalize f.message = k))
          = ((exactQualKeys (prep stmts)).map (mkExactFinding p (prep stmts))).filter
          (fun f => decide (canonicalize f.message = k)) := by
        apply List.filter_congr
        intro f hf
        rcases List.mem_map.mp hf with ⟨k', _, rfl⟩
        simp [mkExactFinding]
      rw [hcongr]
      exact filter_map_eq_singleton (mkExactFinding p (prep stmts))
        (fun f => canonicalize f.message) (exactQualKeys (prep stmts))
        (nodup_exactQualKeys (prep stmts))
        (fun k' hk' => canonKey_mkExactFinding hk') k hqk
    rw [hspam, hnoise, hsim, hexact]
    rfl
  · intro s hs hks c hc hsc
    have h3 := mem_similarClusters hc hsc
    have hnc := exactClaimed_of_not_mem_remaining3 h3
    rw [exactClaimed, hks, hqual] at hnc
    exact Bool.noConfusion hnc

/-- The three-statement exact-duplicate example of spec section 8 and test 1
of the harness. -/
def exactExampleStmts : List LogStatement :=
  [{ message := "User logged in successfully", file_path := "auth/login.py",
     line_number := 42, function := "handle_login" },
   { message := "User logged in successfully", file_path := "api/auth.py",
     line_number := 88, function := "authenticate" },
   { message := "User logged in successfully", file_path := "services/user_service.py",
     line_number := 156, function := "login_user" }]

/-- Witness for C1 at the spec's three-statement example. -/
theorem exact_duplicate_correctness_witness :
    ((detect_duplicate_logging exactExampleStmts [] "/tmp/test").duplicate_logs.filter
        (fun f => decide (f.type = FType.exact)
          && decide (canonicalize f.message = "user logged in successfully")))
      = [mkExactFinding "/tmp/test" (prep exactExampleStmts) "user logged in successfully"]
    ∧ (mkExactFinding "/tmp/test" (prep exactExampleStmts) "user logged in successfully").occurrences
        = (groupOf (prep exactExampleStmts) "user logged in successfully").length
    ∧ ∀ s ∈ prep exactExampleStmts, canonKey s = "user logged in successfully" →
        ∀ c ∈ similarClusters (prep exactExampleStmts), s ∉ c :=
  exact_duplicate_correctness exactExampleStmts [] "/tmp/test" "user logged in successfully"
    { message := "User logged in successfully", file_path := "auth/login.py",
      line_number := 42, function := "handle_login" }
    { message := "User logged in successfully", file_path := "api/auth.py",
      line_number := 88, function := "authenticate" }
    (by decide) (by decide) (by decide) (by decide) (by decide)

/-- The six-statement mixed scenario of spec section 8 and test 4 of the
harness: two exact duplicates, one spam, one noise, two similar. -/
def mixedStatements : List LogStatement :=
  [{ message := "Request processed", file_path := "a.py", line_number := 1,
     function := "f1", level := some "INFO" },
   { message := "Request processed", file_path := "b.py", line_number := 2,
     function := "f2", level := some "INFO" },
   { message := "Processing item", file_path := "c.py", line_number := 3,
     function := "process_batch", context := some "for item", level := some "INFO" },
   { message := "Entering function", file_path := "d.py", line_number := 4,
     function := "f3", level := some "DEBUG" },
   { message := "User authentication successful", file_path := "e.py", line_number := 5,
     function := "f4", level := some "INFO" },
   { message := "User authentication completed successfully", file_path := "f.py",
     line_number := 6, function := "f5", level := some "INFO" }]

set_option maxHeartbeats 1000000 in
/-- C3: stage precedence exact > spam > noise > similar — a statement
claimed by an earlier stage never feeds a later stage, so no statement is
double-counted across finding types — and the spec's mixed scenario yields
exactly four findings with by_type counts exact 1, spam 1, noise 1,
similar 1. -/
theorem stage_precedence_no_double_count :
    (∀ (ns : List LogStatement) (s : LogStatement),
       s ∈ spamStmts ns → exactClaimed ns s = false)
    ∧ (∀ (ns : List LogStatement) (s : LogStatement),
       s ∈ noiseStmts ns → exactClaimed ns s = false ∧ s ∉ spamStmts ns)
    ∧ (∀ (ns : List LogStatement) (s : LogStatement) (c : List LogStatement),
       c ∈ similarClusters ns → s ∈ c →
         exactClaimed ns s = false ∧ s ∉ spamStmts ns ∧ s ∉ noiseStmts ns)
    ∧ (detect_duplicate_logging mixedStatements [] "/tmp/test").statistics.by_type
        = [(FType.exact, 1), (FType.spam, 1), (FType.noise, 1), (FType.similar, 1)]
    ∧ (detect_duplicate_logging mixedStatements [] "/tmp/test").duplicate_logs.length = 4 := by
  refine ⟨?_, ?_, ?_, by decide, by decide⟩
  · intro ns s hs
    exact (mem_remaining1.mp (List.mem_filter.mp hs).1).2
  · intro ns s hs
    have h2 : s ∈ remaining2 ns := (List.mem_filter.mp hs).1
    have h1 : s ∈ remaining1 ns := (List.mem_filter.mp h2).1
    refine ⟨(mem_remaining1.mp h1).2, ?_⟩
    intro hsp
    have hloop := (List.mem_filter.mp hsp).2
    have hnl := (List.mem_filter.mp h2).2
    rw [hloop] at hnl
    simp at hnl
  · intro ns s c hc hsc
    have h3 := mem_similarClusters hc hsc
    have h2 : s ∈ remaining2 ns := (List.mem_filter.mp h3).1
    have hnn := (List.mem_filter.mp h3).2
    have hnl := (List.mem_filter.mp h2).2
    refine ⟨exactClaimed_of_not_mem_remaining3 h3, ?_, ?_⟩
    · intro hsp
      have hloop := (List.mem_filter.mp hsp).2
      rw [hloop] at hnl
      simp at hnl
    · intro hns
      have hnoisy := (List.mem_filter.mp hns).2
      rw [hnoisy] at hnn
      simp at hnn

/-- Witness for C3 at a concrete spam statement. -/
theorem stage_precedence_no_double_count_witness :
    exactClaimed (prep [fragmentStmt]) (normalizeStmt fragmentStmt) = false :=
  stage_precedence_no_double_count.1 (prep [fragmentStmt]) (normalizeStmt fragmentStmt)
    (by decide)

/-! ### Serialization of Reports to a flat, acyclic record format -/

/-- A structurally simple, acyclic record format — flat maps/lists of
primitives — for transporting Reports (spec section 6). -/
inductive Json where
  | str : String → Json
  | num : Nat → Json
  | bool : Bool → Json
  | arr : List Json → Json
  | obj : List (String × Json) → Json

/-- The wire name of a finding type. -/
def FType.toName : FType → String
  | FType.exact => "exact"
  | FType.spam => "spam"
  | FType.noise => "noise"
  | FType.similar => "similar"

/-- Parses a finding type from its wire name. -/
def FType.ofName (s : String) : Option FType :=
  if s = "exact" then some FType.exact
  else if s = "spam" then some FType.spam
  else if s = "noise" then some FType.noise
  else if s = "similar" then some FType.similar
  else none

theorem ftype_ofName_toName (t : FType) : FType.ofName t.toName = some t := by
  cases t <;> rfl

/-- The wire name of a severity. -/
def Severity.toName : Severity → String
  | Severity.critical => "critical"
  | Severity.high => "high"
  | Severity.medium => "medium"
  | Severity.low => "low"

/-- Parses a severity from its wire name. -/
def Severity.ofName (s : String) : Option Severity :=
  if s = "critical" then some Severity.critical
  else if s = "high" then some Severity.high
  else if s = "medium" then some Severity.medium
  else if s = "low" then some Severity.low
  else none

theorem severity_ofName_toName (v : Severity) : Severity.ofName v.toName = some v := by
  cases v <;> rfl

/-- Encodes a location as a flat record. -/
def encodeLocation (l : Location) : Json :=
  Json.obj [("file_path", Json.str l.file_path), ("line_number", Json.num l.line_number),
    ("function", Json.str l.function)]

/-- Decodes a location from its flat record. -/
def decodeLocation : Json → Option Location
  | Json.obj [("file_path", Json.str f), ("line_number", Json.num n),
      ("function", Json.str fn)] =>
    some { file_path := f, line_number := n, function := fn }
  | _ => none

theorem decodeLocation_encodeLocation (l : Location) :
    decodeLocation (encodeLocation l) = some l := rfl

/-- Decodes a list of records elementwise, failing if any element fails. -/
def decodeList {α : Type} (dec : Json → Option α) : List Json → Option (List α)
  | [] => some []
  | j :: js =>
    match dec j, decodeList dec js with
    | some a, some as => some (a :: as)
    | _, _ => none

theorem decodeList_map {α : Type} (dec : Json → Option α) (enc : α → Json)
    (h : ∀ a, dec (enc a) = some a) :
    ∀ l : List α, decodeList dec (l.map enc) = some l := by
  intro l
  induction l with
  | nil => rfl
  | cons a t ih => simp [decodeList, h, ih]

/-- Encodes a finding as a flat record. -/
def encodeFinding (f : Finding) : Json :=
  Json.obj [("type", Json.str f.type.toName), ("severity", Json.str f.severity.toName),
    ("occurrences", Json.num f.occurrences),
    ("locations", Json.arr (f.locations.map encodeLocation)),
    ("message", Json.str f.message), ("recommendation", Json.str f.recommendation)]

/-- Decodes a finding from its flat record. -/
def decodeFinding : Json → Option Finding
  | Json.obj [("type", Json.str t), ("severity", Json.str sv),
      ("occurrences", Json.num oc), ("locations", Json.arr ls),
      ("message", Json.str m), ("recommendation", Json.str r)] =>
    match FType.ofName t, Severity.ofName sv, decodeList decodeLocation ls with
    | some ty, some s, some locs =>
        some { type := ty, severity := s, occurrences := oc, locations := locs,
               message := m, recommendation := r }
    | _, _, _ => none
  | _ => none

theorem decodeFinding_encodeFinding (f : Finding) :
    decodeFinding (encodeFinding f) = some f := by
  cases f with
  | mk ty sv oc locs m r =>
    simp [encodeFinding, decodeFinding, ftype_ofName_toName, severity_ofName_toName,
      decodeList_map decodeLocation encodeLocation decodeLocation_encodeLocation]

/-- Encodes a per-type count table as a flat map. -/
def encodeTypeCounts (l : List (FType × Nat)) : Json :=
  Json.obj (l.map (fun q => (FType.toName q.1, Json.num q.2)))

/-- Decodes a per-type count table field list. -/
def decodeTypeCountsAux : List (String × Json) → Option (List (FType × Nat))
  | [] => some []
  | (k, Json.num n) :: rest =>
    match FType.ofName k, decodeTypeCountsAux rest with
    | some t, some r => some ((t, n) :: r)
    | _, _ => none
  | _ => none

/-- Decodes a per-type count table. -/
def decodeTypeCounts : Json → Option (List (FType × Nat))
  | Json.obj fields => decodeTypeCountsAux fields
  | _ => none

theorem decodeTypeCountsAux_map :
    ∀ l : List (FType × Nat),
      decodeTypeCountsAux (l.map (fun q => (FType.toName q.1, Json.num q.2))) = some l := by
  intro l
  induction l with
  | nil => rfl
  | cons q t ih =>
    cases q with
    | mk a b => simp [decodeTypeCountsAux, ftype_ofName_toName, ih]

/-- Encodes a per-severity count table as a flat map. -/
def encodeSeverityCounts (l : List (Severity × Nat)) : Json :=
  Json.obj (l.map (fun q => (Severity.toName q.1, Json.num q.2)))

/-- Decodes a per-severity count table field list. -/
def decodeSeverityCountsAux : List (String × Json) → Option (List (Severity × Nat))
  | [] => some []
  | (k, Json.num n) :: rest =>
    match Severity.ofName k, decodeSeverityCountsAux rest with
    | some v, some r => some ((v, n) :: r)
    | _, _ => none
  | _ => none

/-- Decodes a per-severity count table. -/
def decodeSeverityCounts : Json → Option (List (Severity × Nat))
  | Json.obj fields => decodeSeverityCountsAux fields
  | _ => none

theorem decodeSeverityCountsAux_map :
    ∀ l : List (Severity × Nat),
      decodeSeverityCountsAux (l.map (fun q => (Severity.toName q.1, Json.num q.2))) = some l := by
  intro l
  induction l with
  | nil => rfl
  | cons q t ih =>
    cases q with
    | mk a b => simp [decodeSeverityCountsAux, severity_ofName_toName, ih]

/-- Encodes the statistics as a flat record. -/
def encodeStatistics (st : Statistics) : Json :=
  Json.obj [("total_duplicates", Json.num st.total_duplicates),
    ("total_affected_locations", Json.num st.total_affected_locations),
    ("by_type", encodeTypeCounts st.by_type),
    ("by_severity", encodeSeverityCounts st.by_severity)]

/-- Decodes the statistics from its flat record. -/
def decodeStatistics : Json → Option Statistics
  | Json.obj [("total_duplicates", Json.num td),
      ("total_affected_locations", Json.num ta), ("by_type", bt), ("by_severity", bs)] =>
    match decodeTypeCounts bt, decodeSeverityCounts bs with
    | some t, some s =>
        some { total_duplicates := td, total_affected_locations := ta,
               by_type := t, by_severity := s }
    | _, _ => none
  | _ => none

theorem decodeStatistics_encodeStatistics (st : Statistics) :
    decodeStatistics (encodeStatistics st) = some st := by
  cases st with
  | mk td ta bt bs =>
    simp [encodeStatistics, decodeStatistics, encodeTypeCounts, encodeSeverityCounts,
      decodeTypeCounts, decodeSeverityCounts, decodeTypeCountsAux_map,
      decodeSeverityCountsAux_map]

/-- Encodes a Report as a flat, acyclic record of primitives. -/
def encodeReport (r : Report) : Json :=
  Json.obj [("success", Json.bool r.success), ("detection_mode", Json.str r.detection_mode),
    ("duplicate_logs", Json.arr (r.duplicate_logs.map encodeFinding)),
    ("statistics", encodeStatistics r.statistics), ("message", Json.str r.message)]

/-- Decodes a Report from its flat record. -/
def decodeReport : Json → Option Report
  | Json.obj [("success", Json.bool sc), ("detection_mode", Json.str dm),
      ("duplicate_logs", Json.arr ds), ("statistics", st), ("message", Json.str m)] =>
    match decodeList decodeFinding ds, decodeStatistics st with
    | some fs, some stats =>
        some { success := sc, detection_mode := dm, duplicate_logs := fs,
               statistics := stats, message := m }
    | _, _ => none
  | _ => none

theorem decodeReport_encodeReport (r : Report) :
    decodeReport (encodeReport r) = some r := by
  cases r with
  | mk sc dm ds st m =>
    simp [encodeReport, decodeReport, decodeStatistics_encodeStatistics,
      decodeList_map decodeFinding encodeFinding decodeFinding_encodeFinding]

/-- C9: the engine's Report embeds into the flat, acyclic `Json` record
format of primitives, and encoding the Report then decoding it back yields
the Report unchanged (serialization round-trip is the identity). -/
theorem report_serialization_roundtrip (stmts : List LogStatement) (e : List String)
    (p : String) :
    decodeReport (encodeReport (detect_duplicate_logging stmts e p))
      = some (detect_duplicate_logging stmts e p) :=
  decodeReport_encodeReport _
